import Mathlib

/-!
Verification of the incremental-polling connector components
(`components/hubspot/sources/new-form-submission/new-form-submission.mjs`,
`components/reddit/reddit.app.mjs`).

JavaScript strings are modelled as lists of characters (`Str`), JS numbers
used as millisecond timestamps or HTTP status codes as `Nat`, and
`null`/`undefined` as `Option.none`.
-/

/-- JavaScript strings, modelled as character lists. -/
abbrev Str := List Char

namespace Hubspot

/-- A HubSpot form-submission record, with the two fields the component reads:
`pageUrl` and `submittedAt` (a millisecond epoch timestamp). -/
structure Result where
  pageUrl : Str
  submittedAt : Nat
deriving DecidableEq

/-- From `new-form-submission.mjs` (`isRelevant`): a result is relevant when
`result.submittedAt > submittedAfter` (strict comparison against the cursor). -/
def isRelevant (result : Result) (submittedAfter : Nat) : Bool :=
  decide (result.submittedAt > submittedAfter)

/-- Metadata built for an emission by `generateMeta`.  The locale-formatted
human-readable `summary` string is not modelled; no claim depends on it. -/
structure Meta where
  id : Str
  ts : Nat
deriving DecidableEq

/-- `Nat.repr`, as character list: the JS stringification of the timestamp
inside the template literal of `generateMeta`. -/
def natStr (n : Nat) : Str :=
  (Nat.repr n).data

/-- From `new-form-submission.mjs` (`generateMeta`): the emission metadata,
whose `id` is the template literal `pageUrl` followed by `submittedAt`
stringified, and whose `ts` is `submittedAt`. -/
def generateMeta (result : Result) : Meta :=
  { id := result.pageUrl ++ natStr result.submittedAt
    ts := result.submittedAt }

/-- Modelled from the spec: `paginate` (defined in the sources' shared
`common.mjs`, which is not part of the sources given) fetches the newest-first
pages of one sub-resource, filters to items strictly newer than `after` using
the component's `isRelevant`, reverses the relevant items to chronological
order, and emits each one (spec section 4.1, steps 2-4).  `fetched` is the
concatenation of the newest-first pages returned by the vendor API. -/
def emissionsOfFetch (after : Nat) (fetched : List Result) : List Result :=
  (fetched.filter (fun r => isRelevant r after)).reverse

/-- Modelled from the spec: the cursor update of one poll cycle
(spec section 4.1, step 6): the new cursor is the ordering key of the newest
item observed this cycle, and the cursor is unchanged when no items were
observed.  `common.mjs`, which performs the cursor update, is not part of the
sources given. -/
def newCursorOf (cursor : Nat) (fetched : List Result) : Nat :=
  if fetched.isEmpty then cursor
  else (fetched.map (fun r => r.submittedAt)).foldl max 0

/-- Modelled from the spec: one poll cycle over a single sub-resource, given
the items fetched this cycle (newest-first): the emissions handed to the sink
and the persisted new cursor. -/
def pollCycle (cursor : Nat) (fetched : List Result) : List Result × Nat :=
  (emissionsOfFetch cursor fetched, newCursorOf cursor fetched)

/-- One sub-resource (form) fetch outcome inside `processResults`: the
`paginate` sub-call for that form either rejects with an error or resolves,
having fetched that form's newest-first items. -/
abbrev FormFetch (ε : Type) := Except ε (List Result)

/-- Modelled from the spec: the emissions delivered by one form's isolated
`paginate` sub-call (spec section 4.1, step 5): a successful sub-call emits
its relevant items in chronological order; a rejected sub-call emits
nothing. -/
def paginateEmissions {ε : Type} (after : Nat) (fetch : FormFetch ε) : List Result :=
  match fetch with
  | .ok fetched => emissionsOfFetch after fetched
  | .error _ => []

/-- From `new-form-submission.mjs` (`processResults`): the per-form `paginate`
calls run concurrently under `Promise.all`.  Each sub-call emits its own items
as it runs; `Promise.all` rejects when any sub-call rejects, but does not
cancel the sibling sub-calls, so every item emitted by a successful sub-call
is still delivered.  The first component collects the delivered emissions
(one linearization: form order); the second records whether the combined
promise rejected. -/
def processResults {ε : Type} (after : Nat) (fetches : List (FormFetch ε)) :
    List Result × Bool :=
  (fetches.flatMap (paginateEmissions after),
   fetches.any (fun f => match f with | .error _ => true | .ok _ => false))

/-- The newest-first page of the spec's boundary scenario: keys
`[130, 120, 110, 100, 90]` against starting cursor `100`. -/
def scenarioPage : List Result :=
  [⟨['u'], 130⟩, ⟨['u'], 120⟩, ⟨['u'], 110⟩, ⟨['u'], 100⟩, ⟨['u'], 90⟩]

/-- A successfully fetched sibling page used in the sub-resource-failure
scenario: form A returns items with keys `[50, 40]` (newest first). -/
def demoPage : List Result :=
  [⟨['a'], 50⟩, ⟨['a'], 40⟩]

/-- A cycle in which form A's fetch succeeds with `demoPage` while form B's
`paginate` call rejects. -/
def demoFetches : List (FormFetch Unit) :=
  [Except.ok demoPage, Except.error ()]

/-- The colliding pair for `generateMeta`: pageUrl `a1` at timestamp `23`. -/
def collideA : Result := ⟨['a', '1'], 23⟩

/-- The colliding pair for `generateMeta`: pageUrl `a12` at timestamp `3`. -/
def collideB : Result := ⟨['a', '1', '2'], 3⟩

end Hubspot

namespace Reddit

/-! ### Retry wrapper (`_isRetriableStatusCode`, `_withRetries`) -/

/-- The status codes in the array literal of `_isRetriableStatusCode`:
`[408, 429, 500]`. -/
def retriableStatuses : List Nat := [408, 429, 500]

/-- From `reddit.app.mjs` (`_isRetriableStatusCode`): the body evaluates
`[408, 429, 500].includes(statusCode)` but the `return` keyword is missing,
so the computed membership test is discarded and the JS function always
returns `undefined`.  The status code (extracted by
`get(err, ["response", "status"])`) may itself be `undefined`, hence
`Option Nat`; the returned JS value is modelled as `Option Bool` with `none`
for `undefined`. -/
def _isRetriableStatusCode (statusCode : Option Nat) : Option Bool :=
  let _ := match statusCode with
    | some c => retriableStatuses.contains c
    | none => false
  none

/-- JS truthiness of the modelled return values: `undefined` and `false` are
falsy, `true` is truthy. -/
def truthy : Option Bool → Bool
  | none => false
  | some b => b

/-- From `reddit.app.mjs` (`_withRetries`): `retryOpts.retries = 5`. -/
def retryOpts_retries : Nat := 5

/-- From `reddit.app.mjs` (`_withRetries`): `retryOpts.factor = 2`. -/
def retryOpts_factor : Nat := 2

/-- The outcome of `_withRetries` as its caller observes it: a resolved
value, a bail (the promise is rejected immediately with the failing status,
without further retries influencing the result), or exhaustion of the retry
budget ending with the last error rethrown. -/
inductive RetryOutcome (α : Type) where
  | ok : α → RetryOutcome α
  | bailed : Option Nat → RetryOutcome α
  | exhausted : Option Nat → RetryOutcome α
deriving DecidableEq

/-- From `reddit.app.mjs` (`_withRetries`): the attempt loop of `async-retry`.
`apiCall` is modelled by its outcome on each attempt (attempts counted from
0); an error carries `get(err, ["response", "status"])`.  On an error whose
status is not truthy under `_isRetriableStatusCode`, the wrapper calls `bail`,
which settles the returned promise with that error at once; otherwise the
error is rethrown and `async-retry` re-attempts while retries remain.
Returns the settled outcome together with the number of attempts that
determined it. -/
def withRetriesGo {α : Type} (apiCall : Nat → Except (Option Nat) α) :
    Nat → Nat → RetryOutcome α × Nat
  | attempt, 0 =>
    match apiCall attempt with
    | .ok a => (.ok a, attempt + 1)
    | .error status =>
      if truthy (_isRetriableStatusCode status) then (.exhausted status, attempt + 1)
      else (.bailed status, attempt + 1)
  | attempt, remaining + 1 =>
    match apiCall attempt with
    | .ok a => (.ok a, attempt + 1)
    | .error status =>
      if truthy (_isRetriableStatusCode status) then
        withRetriesGo apiCall (attempt + 1) remaining
      else (.bailed status, attempt + 1)

/-- From `reddit.app.mjs` (`_withRetries`): run the attempt loop with the
configured retry budget (`retries: 5`, i.e. at most 6 attempts). -/
def _withRetries {α : Type} (apiCall : Nat → Except (Option Nat) α) :
    RetryOutcome α × Nat :=
  withRetriesGo apiCall 0 retryOpts_retries

/-- An API call that fails on every attempt with HTTP 408 (request
timeout, listed in the retriable array). -/
def alwaysFail408 : Nat → Except (Option Nat) Unit := fun _ => .error (some 408)

/-- An API call that fails on every attempt with HTTP 429 (rate limiting, a
transient error per the spec). -/
def alwaysFail429 : Nat → Except (Option Nat) Unit := fun _ => .error (some 429)

/-- An API call that fails on every attempt with HTTP 500. -/
def alwaysFail500 : Nat → Except (Option Nat) Unit := fun _ => .error (some 500)

/-! ### Query-string builder (`_getQuery`) -/

/-- A query-parameter value: `none` models a JS nil (`null` or `undefined`,
the `isNil` check); `some v` is any other value, stringified as the template
literal does (so the boolean `false` is `"false"` and the number `0` is
`"0"`, both non-nil and therefore included). -/
abbrev ParamVal := Option Str

/-- The loop body of `_getQuery`: a nil value is skipped (the explicit
`isNil` check, so `false` and `0` values are kept); otherwise
`key=value&` is appended to the query built so far. -/
def queryStep (query : Str) (kv : Str × ParamVal) : Str :=
  match kv.2 with
  | none => query
  | some v => query ++ kv.1 ++ ['='] ++ v ++ ['&']

/-- From `reddit.app.mjs` (`_getQuery`): with absent `params` the result is
`""`; otherwise the builder starts from `"?"`, appends `key=value&` for every
parameter whose value is not nil, in key order, and finally removes the last
character (`substr(0, length - 1)`), which strips the trailing `&`, or the
`?` itself when no parameter qualified. -/
def _getQuery (params : Option (List (Str × ParamVal))) : Str :=
  match params with
  | none => []
  | some ps => (ps.foldl queryStep ['?']).dropLast

/-- The `key=value` fragments of the non-nil parameters, in key order. -/
def queryEntries (ps : List (Str × ParamVal)) : List Str :=
  ps.filterMap (fun kv => kv.2.map (fun v => kv.1 ++ ['='] ++ v))

/-- Fragments joined with the `&` separator. -/
def joinAmp : List Str → Str
  | [] => []
  | [e] => e
  | e :: e' :: es => e ++ '&' :: joinAmp (e' :: es)

/-- Fragments each followed by a trailing `&`, as the foldl builds them. -/
def flatAmp (es : List Str) : Str :=
  es.flatMap (fun e => e ++ ['&'])

/-- A value is benign for the trailing-character property when it does not
itself end with `&` or `?` (nil values are dropped and thus benign). -/
def valOk (kv : Str × ParamVal) : Bool :=
  match kv.2 with
  | none => true
  | some v => !(decide (v.getLast? = some '&') || decide (v.getLast? = some '?'))

/-- Parameters whose single value ends with `&`: the built query string then
ends with `&` as well. -/
def badParams : List (Str × ParamVal) := [(['a'], some ['1', '&'])]

/-- Parameters with a boolean-like value, a nil value and a zero-like value:
only the nil entry is dropped. -/
def demoParams : List (Str × ParamVal) :=
  [(['a'], some ['f', 'a', 'l', 's', 'e']), (['b'], none), (['c'], some ['0'])]

/-! ### Subreddit search pagination (`getAllSearchSubredditsResults`) -/

/-- One community of a search listing: the fields the loop reads from
`subreddit.data` (`name` is the fullname used as the next `after` anchor;
`displayName` models the JSON field `display_name`). -/
structure Community where
  name : Str
  title : Str
  displayName : Str
deriving DecidableEq

/-- One page of `/subreddits/search`: `redditCommunities.data.children`.
An absent `data`/`children` (which makes the lodash `get` of the length
return `undefined`) is collapsed into the empty list, since both break the
loop. -/
structure Listing where
  children : List Community
deriving DecidableEq

/-- The `{title, displayName}` record pushed for one community. -/
structure SubredditResult where
  title : Str
  displayName : Str
deriving DecidableEq

/-- The record built from one community. -/
def communityResult (c : Community) : SubredditResult :=
  ⟨c.title, c.displayName⟩

/-- `communities[communities.length - 1].data.name`: the fullname of the last
community of a page; `[]` when the page is empty (the loop never reads it
then). -/
def lastName (l : Listing) : Str :=
  match l.children.getLast? with
  | some c => c.name
  | none => []

/-- From `reddit.app.mjs` (`getAllSearchSubredditsResults`): the do-while
loop.  `fetch` models `searchSubreddits` keyed by the `after` token (the
remaining query parameters are fixed; `after = null` on the first request).
Each iteration fetches a page; an empty (or absent) children list breaks out;
otherwise `after` is set to the fullname of the last community, all records
of the page are pushed, and the loop continues while `after` is truthy (the
empty string is falsy in JS).  `fuel` bounds the number of iterations so the
function is total; the termination theorem shows the result is independent of
any sufficiently large fuel. -/
def getAllAux (fetch : Option Str → Listing) :
    Nat → Option Str → List SubredditResult → List SubredditResult
  | 0, _, acc => acc
  | fuel + 1, after, acc =>
    let page := fetch after
    if page.children.isEmpty then acc
    else
      let newAfter := lastName page
      let acc' := acc ++ page.children.map communityResult
      if newAfter = [] then acc'
      else getAllAux fetch fuel (some newAfter) acc'

/-- `getAllSearchSubredditsResults`, starting from `after = null` with an
empty `results` accumulator. -/
def getAllSearchSubredditsResults (fetch : Option Str → Listing) (fuel : Nat) :
    List SubredditResult :=
  getAllAux fetch fuel none []

/-- The chain of `after` anchors the loop sends, starting from a given
anchor: the next request uses the fullname of the last community of the
previous page. -/
def chainFrom (fetch : Option Str → Listing) (after : Option Str) :
    Nat → Option Str
  | 0 => after
  | i + 1 => chainFrom fetch (some (lastName (fetch after))) i

/-- A concrete three-page search source: the first page (anchor `null`) holds
communities `n1`, `n2`; the page anchored at `n2` holds `n3`; every other
anchor yields an empty page. -/
def demoFetch : Option Str → Listing := fun after =>
  if after = none then
    ⟨[⟨['n', '1'], ['t', '1'], ['d', '1']⟩, ⟨['n', '2'], ['t', '2'], ['d', '2']⟩]⟩
  else if after = some ['n', '2'] then
    ⟨[⟨['n', '3'], ['t', '3'], ['d', '3']⟩]⟩
  else
    ⟨[]⟩

end Reddit

namespace Hubspot

/-! ### Helper lemmas about `List.foldl max` -/

theorem init_le_foldl_max (ks : List Nat) : ∀ a : Nat, a ≤ ks.foldl max a := by
  induction ks with
  | nil => intro a; exact le_refl a
  | cons k ks ih => intro a; exact le_trans (le_max_left a k) (ih (max a k))

theorem le_foldl_max_of_mem (ks : List Nat) :
    ∀ a b : Nat, b ∈ ks → b ≤ ks.foldl max a := by
  induction ks with
  | nil => intro a b hb; cases hb
  | cons k ks ih =>
    intro a b hb
    cases hb with
    | head => exact le_trans (le_max_right a k) (init_le_foldl_max ks (max a k))
    | tail _ hmem => exact ih (max a k) b hmem

theorem foldl_max_mem (ks : List Nat) :
    ∀ a : Nat, ks.foldl max a = a ∨ ks.foldl max a ∈ ks := by
  induction ks with
  | nil => intro a; exact Or.inl rfl
  | cons k ks ih =>
    intro a
    rcases ih (max a k) with h | h
    · rcases max_choice a k with hm | hm
      · exact Or.inl (h.trans hm)
      · exact Or.inr (by rw [List.foldl_cons, h, hm]; exact List.Mem.head ks)
    · exact Or.inr (List.Mem.tail k h)

theorem foldl_max_zero_mem (ks : List Nat) (h : ks ≠ []) : ks.foldl max 0 ∈ ks := by
  rcases foldl_max_mem ks 0 with h0 | hmem
  · cases ks with
    | nil => exact absurd rfl h
    | cons k ks' =>
      have hk : k ≤ 0 := by
        have hle := le_foldl_max_of_mem (k :: ks') 0 k (List.Mem.head _)
        rw [h0] at hle
        exact hle
      rw [h0, ← Nat.le_zero.mp hk]
      exact List.Mem.head _
  · exact hmem

/-- Every item observed this cycle has ordering key at most the new cursor. -/
theorem le_newCursorOf (cursor : Nat) (fetched : List Result) :
    ∀ r ∈ fetched, r.submittedAt ≤ newCursorOf cursor fetched := by
  intro r hr
  unfold newCursorOf
  have hne : fetched.isEmpty ≠ true := by
    intro h
    rw [List.isEmpty_iff.mp h] at hr
    cases hr
  rw [if_neg hne]
  exact le_foldl_max_of_mem _ 0 r.submittedAt (List.mem_map_of_mem _ hr)

/-- When items were observed, the new cursor does not depend on the old one. -/
theorem newCursorOf_of_ne_nil (cursor cursor' : Nat) (fetched : List Result)
    (h : fetched ≠ []) : newCursorOf cursor fetched = newCursorOf cursor' fetched := by
  unfold newCursorOf
  have hne : fetched.isEmpty ≠ true := by
    intro hh; exact h (List.isEmpty_iff.mp hh)
  rw [if_neg hne, if_neg hne]

/-- The cycle's emission list keeps only items strictly newer than the cursor. -/
theorem mem_emissions_gt (after : Nat) (fetched : List Result) :
    ∀ r ∈ emissionsOfFetch after fetched, after < r.submittedAt := by
  intro r hr
  unfold emissionsOfFetch at hr
  rw [List.mem_reverse] at hr
  have := List.of_mem_filter hr
  exact of_decide_eq_true this

/-- C1: the relevance filter admits exactly the items whose ordering key is
strictly greater than the cursor: `isRelevant result cursor = true` iff
`result.submittedAt > cursor`; consequently an item whose ordering key exactly
equals the starting cursor is never among the emissions of a poll cycle. -/
theorem isRelevant_iff_strictly_newer (result : Result) (cursor : Nat)
    (fetched : List Result) :
    (isRelevant result cursor = true ↔ result.submittedAt > cursor) ∧
    (∀ s ∈ (pollCycle cursor fetched).1, s.submittedAt ≠ cursor) := by
  constructor
  · exact decide_eq_true_iff
  · intro s hs
    have := mem_emissions_gt cursor fetched s hs
    exact fun heq => absurd (heq ▸ this) (lt_irrefl cursor)

theorem isRelevant_iff_strictly_newer_witness :
    isRelevant ⟨['u'], 150⟩ 100 = true ∧
    (⟨['u'], 100⟩ : Result) ∉ (pollCycle 100 scenarioPage).1 :=
  ⟨(isRelevant_iff_strictly_newer ⟨['u'], 150⟩ 100 scenarioPage).1.mpr (by decide),
   fun hmem =>
     (isRelevant_iff_strictly_newer ⟨['u'], 150⟩ 100 scenarioPage).2 _ hmem rfl⟩

/-- C5: when the fetched items of a cycle are newest-first (non-increasing in
the ordering key), the emission sequence handed to the sink is non-decreasing
in the ordering key: the relevant items are reversed to chronological order
before emission. -/
theorem emissions_sorted_of_newest_first (after : Nat) (fetched : List Result)
    (hdesc : fetched.Pairwise (fun a b => b.submittedAt ≤ a.submittedAt)) :
    (emissionsOfFetch after fetched).Pairwise
      (fun a b => a.submittedAt ≤ b.submittedAt) := by
  unfold emissionsOfFetch
  rw [List.pairwise_reverse]
  exact hdesc.filter _

theorem emissions_sorted_of_newest_first_witness :
    (emissionsOfFetch 100 scenarioPage).Pairwise
      (fun a b => a.submittedAt ≤ b.submittedAt) :=
  emissions_sorted_of_newest_first 100 scenarioPage (by decide)

/-- C6: the poll operation is idempotent: re-running a poll cycle on the same
upstream items, starting from the cursor the first cycle produced, emits
nothing and leaves the cursor unchanged. -/
theorem poll_idempotent (cursor : Nat) (fetched : List Result) :
    pollCycle (pollCycle cursor fetched).2 fetched =
      ([], (pollCycle cursor fetched).2) := by
  unfold pollCycle
  refine Prod.ext ?_ ?_
  · show emissionsOfFetch (newCursorOf cursor fetched) fetched = []
    unfold emissionsOfFetch
    rw [List.reverse_eq_nil_iff, List.filter_eq_nil_iff]
    intro r hr hrel
    have hle := le_newCursorOf cursor fetched r hr
    have hgt := of_decide_eq_true hrel
    exact absurd hle (not_le_of_gt hgt)
  · show newCursorOf (newCursorOf cursor fetched) fetched = newCursorOf cursor fetched
    by_cases hf : fetched = []
    · rw [hf]; simp [newCursorOf]
    · exact newCursorOf_of_ne_nil _ cursor fetched hf

/-- C7: the new cursor of a poll cycle is the ordering key of the newest item
observed this cycle (it is the key of some observed item and no observed item
has a greater key), and when no items are observed the cursor is unchanged. -/
theorem newCursor_is_newest_observed (cursor : Nat) (fetched : List Result) :
    (fetched = [] → (pollCycle cursor fetched).2 = cursor) ∧
    (fetched ≠ [] →
      (pollCycle cursor fetched).2 ∈ fetched.map (fun r => r.submittedAt) ∧
      ∀ r ∈ fetched, r.submittedAt ≤ (pollCycle cursor fetched).2) := by
  constructor
  · intro h
    show newCursorOf cursor fetched = cursor
    rw [h]; simp [newCursorOf]
  · intro h
    refine ⟨?_, le_newCursorOf cursor fetched⟩
    show newCursorOf cursor fetched ∈ fetched.map (fun r => r.submittedAt)
    unfold newCursorOf
    have hne : fetched.isEmpty ≠ true := fun hh => h (List.isEmpty_iff.mp hh)
    rw [if_neg hne]
    refine foldl_max_zero_mem _ ?_
    intro hm
    exact h (List.map_eq_nil_iff.mp hm)

/-- The spec's worked scenario: cursor `100`, newest-first page with keys
`[130, 120, 110, 100, 90]`; emissions are the keys `[110, 120, 130]` in that
order and the new cursor is `130`, the newest observed key. -/
theorem newCursor_is_newest_observed_witness :
    pollCycle 100 scenarioPage =
      ([⟨['u'], 110⟩, ⟨['u'], 120⟩, ⟨['u'], 130⟩], 130) ∧
    (pollCycle 100 scenarioPage).2 ∈ scenarioPage.map (fun r => r.submittedAt) ∧
    (pollCycle 100 scenarioPage).2 = 130 :=
  ⟨by decide,
   ((newCursor_is_newest_observed 100 scenarioPage).2 (by decide)).1,
   by decide⟩

/-- C4: sub-resource failures are isolated: when one form's `paginate` call
rejects, every item successfully fetched for a non-failing form is still
delivered, and the combined cycle reports the failure rather than silently
swallowing it. -/
theorem sibling_failure_isolation {ε : Type} (after : Nat)
    (fetches : List (FormFetch ε)) (page : List Result) (e : ε)
    (hok : Except.ok page ∈ fetches) (herr : Except.error e ∈ fetches) :
    (∀ r ∈ emissionsOfFetch after page, r ∈ (processResults after fetches).1) ∧
    (processResults after fetches).2 = true := by
  constructor
  · intro r hr
    show r ∈ fetches.flatMap (paginateEmissions after)
    exact List.mem_flatMap.mpr ⟨Except.ok page, hok, hr⟩
  · exact List.any_eq_true.mpr ⟨Except.error e, herr, rfl⟩

theorem sibling_failure_isolation_witness :
    (⟨['a'], 40⟩ : Result) ∈ (processResults 0 demoFetches).1 ∧
    (processResults 0 demoFetches).2 = true :=
  ⟨(sibling_failure_isolation 0 demoFetches demoPage () (List.Mem.head _)
      (List.Mem.tail _ (List.Mem.head _))).1 _ (by decide),
   (sibling_failure_isolation 0 demoFetches demoPage () (List.Mem.head _)
      (List.Mem.tail _ (List.Mem.head _))).2⟩

/-- C8 fails as stated: the id built by `generateMeta` as `pageUrl`
concatenated with `submittedAt` is not injective over distinct submissions:
pageUrl `a1` at timestamp `23` and pageUrl `a12` at timestamp `3` are distinct
results that both receive the id `a123`. -/
theorem generateMeta_id_collision :
    collideA ≠ collideB ∧ (generateMeta collideA).id = (generateMeta collideB).id := by
  constructor
  · decide
  · rfl

/-- C8 amended: `generateMeta` does not assign globally distinct ids, but any
two distinct submissions differ in the emitted `(id, ts)` metadata pair: they
receive distinct ids or distinct timestamps (for a fixed timestamp the id is
injective in `pageUrl`). -/
theorem generateMeta_meta_injective (r₁ r₂ : Result) (h : r₁ ≠ r₂) :
    (generateMeta r₁).id ≠ (generateMeta r₂).id ∨
    (generateMeta r₁).ts ≠ (generateMeta r₂).ts := by
  rcases r₁ with ⟨u₁, t₁⟩
  rcases r₂ with ⟨u₂, t₂⟩
  by_cases hts : t₁ = t₂
  · left
    intro hid
    apply h
    have hid' : u₁ ++ natStr t₁ = u₂ ++ natStr t₂ := hid
    rw [hts] at hid'
    have hurl := List.append_cancel_right hid'
    rw [hurl, hts]
  · right
    intro hts'
    exact hts hts'

theorem generateMeta_meta_injective_witness :
    (generateMeta collideA).id ≠ (generateMeta collideB).id ∨
    (generateMeta collideA).ts ≠ (generateMeta collideB).ts :=
  generateMeta_meta_injective collideA collideB (by decide)

end Hubspot

namespace Reddit

/-! ### C2 / C3: the retry wrapper never retries -/

/-- Any attempt that fails is bailed immediately, whatever the status code:
the missing `return` makes `_isRetriableStatusCode` yield `undefined`, which
is falsy, so `_withRetries` takes the `bail` branch on every error. -/
theorem withRetriesGo_error {α : Type} (apiCall : Nat → Except (Option Nat) α)
    (s : Option Nat) (attempt remaining : Nat) (h : apiCall attempt = .error s) :
    withRetriesGo apiCall attempt remaining = (.bailed s, attempt + 1) := by
  cases remaining with
  | zero => simp [withRetriesGo, h, truthy, _isRetriableStatusCode]
  | succ r => simp [withRetriesGo, h, truthy, _isRetriableStatusCode]

/-- C2 fails as stated: HTTP 408 is one of the transient codes the claim says
is retried, yet the wrapper settles after a single attempt, bailing with the
error: `_isRetriableStatusCode` computes the `[408, 429, 500].includes(...)`
test but never returns it, so its value (`undefined`) is falsy for every
status code. -/
theorem withRetries_no_retry_on_408 :
    truthy (_isRetriableStatusCode (some 408)) = false ∧
    _withRetries alwaysFail408 = (RetryOutcome.bailed (some 408), 1) :=
  ⟨rfl, rfl⟩

/-- C2 amended: `_withRetries` re-attempts if and only if the truthiness of
`_isRetriableStatusCode(statusCode)` holds; since that function lacks a
`return` it evaluates to `undefined` for every status code, so no failure is
ever retried: every first-attempt error, 408/429/5xx included, is bailed at
once and surfaced. -/
theorem withRetries_bails_on_first_error {α : Type}
    (apiCall : Nat → Except (Option Nat) α) (s : Option Nat)
    (h : apiCall 0 = .error s) :
    (∀ c : Option Nat, truthy (_isRetriableStatusCode c) = false) ∧
    _withRetries apiCall = (.bailed s, 1) :=
  ⟨fun _ => rfl, withRetriesGo_error apiCall s 0 retryOpts_retries h⟩

theorem withRetries_bails_on_first_error_witness :
    truthy (_isRetriableStatusCode (some 500)) = false ∧
    _withRetries alwaysFail500 = (RetryOutcome.bailed (some 500), 1) :=
  ⟨(withRetries_bails_on_first_error alwaysFail500 (some 500) rfl).1 (some 500),
   (withRetries_bails_on_first_error alwaysFail500 (some 500) rfl).2⟩

/-- C3: the configured ceiling (`retries: 5`) and backoff factor (`2`) are in
the source, but a persistently failing transient call (HTTP 429 on every
attempt) is never re-attempted: the promise settles after exactly one attempt
with a bail, so the exhaustion path of the claim is unreachable. -/
theorem retry_ceiling_unreachable :
    retryOpts_retries = 5 ∧ retryOpts_factor = 2 ∧
    _withRetries alwaysFail429 = (RetryOutcome.bailed (some 429), 1) :=
  ⟨rfl, rfl, rfl⟩

/-! ### C9: the query-string builder -/

theorem foldl_query_append (ps : List (Str × ParamVal)) :
    ∀ q : Str, ps.foldl queryStep q = q ++ flatAmp (queryEntries ps) := by
  induction ps with
  | nil => intro q; simp [flatAmp, queryEntries]
  | cons kv ps ih =>
    rcases kv with ⟨k, w⟩
    intro q
    cases w with
    | none =>
      rw [List.foldl_cons]
      rw [show queryStep q (k, none) = q from rfl]
      rw [ih q]
      rw [show queryEntries ((k, none) :: ps) = queryEntries ps from rfl]
    | some v =>
      rw [List.foldl_cons]
      rw [show queryStep q (k, some v) = q ++ k ++ ['='] ++ v ++ ['&'] from rfl]
      rw [ih (q ++ k ++ ['='] ++ v ++ ['&'])]
      rw [show queryEntries ((k, some v) :: ps)
            = (k ++ ['='] ++ v) :: queryEntries ps from rfl]
      rw [show flatAmp ((k ++ ['='] ++ v) :: queryEntries ps)
            = (k ++ ['='] ++ v) ++ ['&'] ++ flatAmp (queryEntries ps) by
        simp [flatAmp]]
      simp [List.append_assoc]

theorem flatAmp_cons_eq (e : Str) (es : List Str) :
    flatAmp (e :: es) = joinAmp (e :: es) ++ ['&'] := by
  induction es generalizing e with
  | nil => simp [flatAmp, joinAmp]
  | cons e' es' ih =>
    rw [show flatAmp (e :: e' :: es') = e ++ ['&'] ++ flatAmp (e' :: es') by
      simp [flatAmp]]
    rw [ih e']
    rw [show joinAmp (e :: e' :: es') = e ++ '&' :: joinAmp (e' :: es') from rfl]
    simp [List.append_assoc]

/-- The query string is empty when `params` is absent or no entry qualifies,
and otherwise is `?` followed by the qualifying `key=value` fragments joined
with `&`. -/
theorem getQuery_char (ps : List (Str × ParamVal)) :
    _getQuery (some ps) =
      if queryEntries ps = [] then [] else '?' :: joinAmp (queryEntries ps) := by
  show (ps.foldl queryStep ['?']).dropLast = _
  rw [foldl_query_append ps ['?']]
  cases hes : queryEntries ps with
  | nil => simp [flatAmp]
  | cons e es =>
    rw [flatAmp_cons_eq, if_neg (List.cons_ne_nil e es)]
    rw [show ['?'] ++ (joinAmp (e :: es) ++ ['&'])
          = ('?' :: joinAmp (e :: es)) ++ ['&'] by simp]
    exact List.dropLast_concat

theorem queryEntries_shape (ps : List (Str × ParamVal)) (e : Str)
    (he : e ∈ queryEntries ps) :
    ∃ kv ∈ ps, ∃ v, kv.2 = some v ∧ e = kv.1 ++ ['='] ++ v := by
  unfold queryEntries at he
  rcases List.mem_filterMap.mp he with ⟨kv, hkv, hmap⟩
  rcases Option.map_eq_some'.mp hmap with ⟨v, hv, heq⟩
  exact ⟨kv, hkv, v, hv, heq.symm⟩

theorem entry_getLast_ok (k v : Str)
    (hv : v.getLast? ≠ some '&' ∧ v.getLast? ≠ some '?') :
    (k ++ ['='] ++ v).getLast? ≠ some '&' ∧ (k ++ ['='] ++ v).getLast? ≠ some '?' := by
  cases v with
  | nil =>
    have h1 : (k ++ ['='] ++ ([] : Str)).getLast? = some '=' := by
      rw [List.append_nil, List.getLast?_append_of_ne_nil k (by simp)]
      rfl
    rw [h1]
    exact ⟨by decide, by decide⟩
  | cons c cs =>
    have h1 : (k ++ ['='] ++ (c :: cs)).getLast? = (c :: cs).getLast? :=
      List.getLast?_append_of_ne_nil _ (List.cons_ne_nil c cs)
    rw [h1]
    exact hv

theorem joinAmp_ne_nil (es : List Str) (hne : es ≠ [])
    (hcs : ∀ e ∈ es, e ≠ []) : joinAmp es ≠ [] := by
  cases es with
  | nil => exact absurd rfl hne
  | cons e es' =>
    cases es' with
    | nil => exact hcs e (List.Mem.head _)
    | cons e' es'' =>
      rw [show joinAmp (e :: e' :: es'') = e ++ '&' :: joinAmp (e' :: es'') from rfl]
      simp

theorem joinAmp_getLast (es : List Str) (hne : es ≠ [])
    (hcs : ∀ e ∈ es, e ≠ []) :
    ∃ e ∈ es, (joinAmp es).getLast? = e.getLast? := by
  induction es with
  | nil => exact absurd rfl hne
  | cons e es ih =>
    cases es with
    | nil => exact ⟨e, List.Mem.head _, rfl⟩
    | cons e' es' =>
      have hcs' : ∀ f ∈ e' :: es', f ≠ [] := fun f hf => hcs f (List.Mem.tail _ hf)
      rcases ih (List.cons_ne_nil e' es') hcs' with ⟨f, hf, heq⟩
      refine ⟨f, List.Mem.tail _ hf, ?_⟩
      rw [show joinAmp (e :: e' :: es') = e ++ '&' :: joinAmp (e' :: es') from rfl]
      rw [List.getLast?_append_of_ne_nil e (List.cons_ne_nil _ _)]
      rw [show ('&' :: joinAmp (e' :: es')) = ['&'] ++ joinAmp (e' :: es') from rfl]
      rw [List.getLast?_append_of_ne_nil _
        (joinAmp_ne_nil (e' :: es') (List.cons_ne_nil e' es') hcs')]
      exact heq

/-- C9 fails as stated: with the single parameter `a = "1&"` (a non-nil
value ending in `&`), the built query string is `?a=1&`, which ends with a
trailing `&`. -/
theorem getQuery_trailing_amp :
    _getQuery (some badParams) = ['?', 'a', '=', '1', '&'] ∧
    (_getQuery (some badParams)).getLast? = some '&' :=
  ⟨rfl, rfl⟩

/-- C9 amended: `_getQuery` returns the empty string when `params` is absent;
otherwise it emits one `key=value` fragment for exactly the keys whose value
is not nil (`false` and `0` values included), joined with `&` after a leading
`?` (the empty string again when no entry qualifies); and provided no
included value itself ends with `&` or `?`, the result never ends with a
trailing `&` or `?`. -/
theorem getQuery_spec :
    _getQuery none = [] ∧
    (∀ ps : List (Str × ParamVal),
      _getQuery (some ps) =
        if queryEntries ps = [] then [] else '?' :: joinAmp (queryEntries ps)) ∧
    (∀ ps : List (Str × ParamVal), (∀ kv ∈ ps, valOk kv = true) →
      (_getQuery (some ps)).getLast? ≠ some '&' ∧
      (_getQuery (some ps)).getLast? ≠ some '?') := by
  refine ⟨rfl, getQuery_char, ?_⟩
  intro ps hok
  rw [getQuery_char ps]
  cases hes : queryEntries ps with
  | nil => simp
  | cons e es =>
    rw [if_neg (List.cons_ne_nil e es)]
    have hents : ∀ f ∈ e :: es,
        f ≠ [] ∧ f.getLast? ≠ some '&' ∧ f.getLast? ≠ some '?' := by
      intro f hf
      have hf' : f ∈ queryEntries ps := hes ▸ hf
      rcases queryEntries_shape ps f hf' with ⟨kv, hkv, v, hv2, hfe⟩
      have hok' := hok kv hkv
      rw [valOk, hv2] at hok'
      simp only [Bool.not_eq_true', Bool.or_eq_false_iff,
        decide_eq_false_iff_not] at hok'
      rw [hfe]
      exact ⟨by simp, (entry_getLast_ok kv.1 v ⟨hok'.1, hok'.2⟩).1,
        (entry_getLast_ok kv.1 v ⟨hok'.1, hok'.2⟩).2⟩
    have hcs : ∀ f ∈ e :: es, f ≠ [] := fun f hf => (hents f hf).1
    rcases joinAmp_getLast (e :: es) (List.cons_ne_nil e es) hcs with ⟨f, hf, hlast⟩
    have hj : ('?' :: joinAmp (e :: es)).getLast? = (joinAmp (e :: es)).getLast? := by
      rw [show ('?' :: joinAmp (e :: es)) = ['?'] ++ joinAmp (e :: es) from rfl]
      exact List.getLast?_append_of_ne_nil _
        (joinAmp_ne_nil (e :: es) (List.cons_ne_nil e es) hcs)
    rw [hj, hlast]
    exact ⟨(hents f hf).2.1, (hents f hf).2.2⟩

theorem getQuery_spec_witness :
    _getQuery (some demoParams) =
      ['?', 'a', '=', 'f', 'a', 'l', 's', 'e', '&', 'c', '=', '0'] ∧
    (_getQuery (some demoParams)).getLast? ≠ some '&' ∧
    (_getQuery (some demoParams)).getLast? ≠ some '?' :=
  ⟨rfl, getQuery_spec.2.2 demoParams (by decide)⟩

/-! ### C10: termination and collection of the subreddit search loop -/

theorem getAllAux_spec (fetch : Option Str → Listing) :
    ∀ (n : Nat) (after : Option Str) (acc : List SubredditResult),
      (∀ i < n, (fetch (chainFrom fetch after i)).children ≠ [] ∧
        lastName (fetch (chainFrom fetch after i)) ≠ []) →
      (fetch (chainFrom fetch after n)).children = [] →
      ∀ fuel, n < fuel →
        getAllAux fetch fuel after acc =
          acc ++ (List.range n).flatMap
            (fun i => (fetch (chainFrom fetch after i)).children.map communityResult) := by
  intro n
  induction n with
  | zero =>
    intro after acc hstep hstop fuel hfuel
    cases fuel with
    | zero => exact absurd hfuel (lt_irrefl 0)
    | succ f =>
      have hstop' : (fetch after).children = [] := hstop
      simp [getAllAux, hstop']
  | succ n ih =>
    intro after acc hstep hstop fuel hfuel
    cases fuel with
    | zero => exact absurd hfuel (Nat.not_lt_zero _)
    | succ f =>
      have h0 := hstep 0 (Nat.succ_pos n)
      have h0c : (fetch after).children ≠ [] := h0.1
      have h0n : lastName (fetch after) ≠ [] := h0.2
      have hne : (fetch after).children.isEmpty ≠ true := by
        intro hh; exact h0c (List.isEmpty_iff.mp hh)
      have hstep' : ∀ i < n,
          (fetch (chainFrom fetch (some (lastName (fetch after))) i)).children ≠ [] ∧
          lastName (fetch (chainFrom fetch (some (lastName (fetch after))) i)) ≠ [] :=
        fun i hi => hstep (i + 1) (Nat.succ_lt_succ hi)
      have hstop' : (fetch (chainFrom fetch (some (lastName (fetch after))) n)).children = [] :=
        hstop
      have hrec := ih (some (lastName (fetch after)))
        (acc ++ (fetch after).children.map communityResult) hstep' hstop' f
        (Nat.lt_of_succ_lt_succ hfuel)
      show getAllAux fetch (f + 1) after acc = _
      rw [show getAllAux fetch (f + 1) after acc
            = if (fetch after).children.isEmpty then acc
              else if lastName (fetch after) = []
                then acc ++ (fetch after).children.map communityResult
                else getAllAux fetch f (some (lastName (fetch after)))
                  (acc ++ (fetch after).children.map communityResult) from rfl]
      rw [if_neg hne, if_neg h0n, hrec]
      rw [List.range_succ_eq_map]
      rw [List.flatMap_cons]
      rw [show chainFrom fetch after 0 = after from rfl]
      rw [List.flatMap_map]
      rw [List.append_assoc]
      rfl

/-- C10: whenever the chain of pages the loop requests (first anchored at
`null`, then at the fullname of the previous page's last community) reaches a
page with an empty or absent children list after `n` non-empty pages (whose
last fullnames are non-empty, as reddit fullnames are),
`getAllSearchSubredditsResults` terminates — any fuel beyond `n` yields the
same result — and returns exactly one `{title, displayName}` record per
community of the fetched pages, in fetch order. -/
theorem getAll_terminates_and_collects (fetch : Option Str → Listing) (n : Nat)
    (hstep : ∀ i < n, (fetch (chainFrom fetch none i)).children ≠ [] ∧
      lastName (fetch (chainFrom fetch none i)) ≠ [])
    (hstop : (fetch (chainFrom fetch none n)).children = []) :
    ∀ fuel, n < fuel →
      getAllSearchSubredditsResults fetch fuel =
        (List.range n).flatMap
          (fun i => (fetch (chainFrom fetch none i)).children.map communityResult) := by
  intro fuel hfuel
  have h := getAllAux_spec fetch n none [] hstep hstop fuel hfuel
  rw [getAllSearchSubredditsResults, h, List.nil_append]

theorem getAll_terminates_and_collects_witness :
    getAllSearchSubredditsResults demoFetch 10 =
      [⟨['t', '1'], ['d', '1']⟩, ⟨['t', '2'], ['d', '2']⟩, ⟨['t', '3'], ['d', '3']⟩] :=
  (getAll_terminates_and_collects demoFetch 2 (by decide) (by decide) 10
    (by decide)).trans (by decide)

end Reddit
